import Mathlib

/-!
Verification of the MultipleSelect widget of inversoft/prime-js.

The development shallowly embeds src/src/main/js/widget.js
(Prime.Widget.MultipleSelect).  The backing native select element is the
list of option records (value, display HTML, selected flag); the chip
display is the ordered list of chip-row element ids living before the
input row, exactly as the DOM holds them.  Operations are translated
line by line from the source; value-keyed operations that throw are
rendered with Except, the thrown branch performing no state change, as
in the source.  The Searcher sub-component and the event mechanism of
the newer widget generation are not present in the sources; where a
claim depends on them the corresponding definition is modelled from the
specification and marked as such.
-/

namespace PrimeWidget

/-- JS value.replace(' ', '-') with a string pattern replaces only the
first occurrence of the space; char-list rendering of that primitive. -/
def replaceFirstSpaceChars : List Char → List Char
  | [] => []
  | c :: cs => if c = ' ' then '-' :: cs else c :: replaceFirstSpaceChars cs

/-- String form of the space sanitisation used by makeOptionID. -/
def replaceFirstSpace (s : String) : String :=
  ⟨replaceFirstSpaceChars s.data⟩

/-- JS s.startsWith(p): p is a prefix of s at position 0 (case-sensitive). -/
def jsStartsWith (s p : String) : Bool :=
  p.data.isPrefixOf s.data

/-- One entry of the backing select element: value, display HTML and the
selected flag (the selected attribute/property). -/
structure OptionRec where
  value : String
  display : String
  selected : Bool
deriving DecidableEq

/-- The widget state: the bound select element id, its live option
collection, the chip rows of the display list in display order (the
input row always sits after them at the very end and is kept implicit),
and the element ids assigned at construction time. -/
structure Widget where
  id : String
  options : List OptionRec
  chips : List String
  displayId : String
  optionListId : String
  inputOptionId : String
  inputId : String
deriving DecidableEq

/-- Errors thrown by the source: the construction-time TypeErrors
(ConfigurationError of the spec taxonomy) and the value-keyed
NotFoundError. -/
inductive MSError where
  | notSelect
  | notMultiple
  | notFound (v : String)
deriving DecidableEq

/-- makeOptionID (widget.js:367-369): element id, "-option-", the value
with its first space replaced. -/
def makeOptionID (w : Widget) (v : String) : String :=
  w.id ++ "-option-" ++ replaceFirstSpace v

/-- The loop of findOptionWithValue (widget.js:154-163): first index
whose option has the given value. -/
def findOptionIdx (v : String) : List OptionRec → Option Nat
  | [] => none
  | o :: os => if o.value = v then some 0 else (findOptionIdx v os).map (· + 1)

/-- findOptionWithValue wrapped at the widget level; the returned index
plays the role of the Prime.Dom.Element handle of the source. -/
def findOptionWithValue (w : Widget) (v : String) : Option Nat :=
  findOptionIdx v w.options

/-- containsOptionWithValue (widget.js:106-108). -/
def containsOptionWithValue (w : Widget) (v : String) : Bool :=
  (findOptionWithValue w v).isSome

/-- addOption (widget.js:78-89): no-op when the value is present,
otherwise appends an unselected option to the select element. -/
def addOption (w : Widget) (v d : String) : Widget :=
  if containsOptionWithValue w v then w
  else { w with options := w.options ++ [⟨v, d, false⟩] }

/-- selectOption (widget.js:283-313) on an option handle (index into the
live option collection): when no chip with the option id exists, set the
selected attribute and insert the chip row right before the input row,
i.e. at the end of the chip list. -/
def selectOption (w : Widget) (i : Nat) : Widget :=
  match w.options[i]? with
  | none => w
  | some o =>
    let oid := makeOptionID w o.value
    if w.chips.contains oid then w
    else { w with options := w.options.set i { o with selected := true },
                  chips := w.chips ++ [oid] }

/-- deselectOption (widget.js:117-127): drop the selected attribute and
remove the chip row with the option id when one is displayed. -/
def deselectOption (w : Widget) (i : Nat) : Widget :=
  match w.options[i]? with
  | none => w
  | some o =>
    { w with options := w.options.set i { o with selected := false },
             chips := w.chips.erase (makeOptionID w o.value) }

/-- removeOption (widget.js:238-254): remove the option element from the
select and its chip row when one is displayed. -/
def removeOption (w : Widget) (i : Nat) : Widget :=
  match w.options[i]? with
  | none => w
  | some o =>
    { w with options := w.options.eraseIdx i,
             chips := w.chips.erase (makeOptionID w o.value) }

/-- selectOptionWithValue (widget.js:325-334): find the option, throw
NotFoundError when absent (before any mutation). -/
def selectOptionWithValue (w : Widget) (v : String) : Except MSError Widget :=
  match findOptionWithValue w v with
  | none => .error (.notFound v)
  | some i => .ok (selectOption w i)

/-- deselectOptionWithValue (widget.js:137-146). -/
def deselectOptionWithValue (w : Widget) (v : String) : Except MSError Widget :=
  match findOptionWithValue w v with
  | none => .error (.notFound v)
  | some i => .ok (deselectOption w i)

/-- removeOptionWithValue (widget.js:264-273). -/
def removeOptionWithValue (w : Widget) (v : String) : Except MSError Widget :=
  match findOptionWithValue w v with
  | none => .error (.notFound v)
  | some i => .ok (removeOption w i)

/-- A thrown Error propagates to the caller with the widget state as it
was when the throw happened; these methods throw before mutating. -/
def runExc (w : Widget) : Except MSError Widget → Widget
  | .ok w' => w'
  | .error _ => w

/-- The reverse loop of removeAllOptions (widget.js:221-229): the
counter is the number of remaining iterations, the iteration with
counter i+1 removes the option at live index i. -/
def removeAllLoop : Nat → Widget → Widget
  | 0, w => w
  | i + 1, w => removeAllLoop i (removeOption w i)

/-- removeAllOptions (widget.js:221-229). -/
def removeAllOptions (w : Widget) : Widget :=
  removeAllLoop w.options.length w

/-- One iteration of the rebuildDisplay loop (widget.js:206-211): read
the live collection at the index and selectOption when the selected
property is set. -/
def rebuildStep (acc : Widget) (i : Nat) : Widget :=
  match acc.options[i]? with
  | some o => if o.selected then selectOption acc i else acc
  | none => acc

/-- rebuildDisplay (widget.js:186-214): clear the chip rows, re-create
the input row ids, then selectOption every option whose selected
property is set, reading the live collection in order. -/
def rebuildDisplay (w : Widget) : Widget :=
  let base : Widget :=
    { w with chips := [],
             inputOptionId := w.id ++ "-input-option",
             inputId := w.id ++ "-input" }
  (List.range base.options.length).foldl rebuildStep base

/-- The element the constructor is bound to: tag name, the multiple
attribute (none when absent), the element id (none when absent) and the
pre-existing option entries. -/
structure ElementDesc where
  tagName : String
  multipleAttr : Option String
  elemId : Option String
  options : List OptionRec
deriving DecidableEq

/-- The MultipleSelect constructor (widget.js:25-63): throws unless the
element is a SELECT with multiple="multiple"; otherwise assigns the
derived element ids and rebuilds the display.  The counter stands for
the static Prime.Widget.MultipleSelect.count used when the element has
no id. -/
def newMultipleSelect (counter : Nat) (el : ElementDesc) : Except MSError Widget :=
  if el.tagName ≠ "SELECT" then .error .notSelect
  else if el.multipleAttr ≠ some "multiple" then .error .notMultiple
  else
    let i := el.elemId.getD ("prime-multiple-select" ++ toString counter)
    .ok (rebuildDisplay
      { id := i, options := el.options, chips := [],
        displayId := i ++ "-display",
        optionListId := i ++ "-option-list",
        inputOptionId := i ++ "-input-option",
        inputId := i ++ "-input" })

/-- The widget produced by the constructor on an empty multiple select
with the given element id. -/
def freshWidget (s : String) : Widget :=
  { id := s, options := [], chips := [],
    displayId := s ++ "-display",
    optionListId := s ++ "-option-list",
    inputOptionId := s ++ "-input-option",
    inputId := s ++ "-input" }

/-- The comparison of the default JS Array sort on strings: lexicographic
on the character codes. -/
def charListLe : List Char → List Char → Bool
  | [], _ => true
  | _ :: _, [] => false
  | a :: as, b :: bs =>
    if a.toNat < b.toNat then true
    else if b.toNat < a.toNat then false
    else charListLe as bs

/-- String form of the JS default sort comparison. -/
def strLeb (a b : String) : Bool :=
  charListLe a.data b.data

/-- The order relation the JS default Array sort arranges strings in. -/
def StrLe (a b : String) : Prop :=
  strLeb a b = true

instance : DecidableRel StrLe :=
  fun a b => inferInstanceAs (Decidable (strLeb a b = true))

/-- selectableOptionsForPrefix (widget.js:378-401): the display HTML of
every unselected option that starts with the given text (all of them
when the argument is absent), then sorted; the sort is the default
lexicographic JS Array sort, modelled as a stable insertion sort under
StrLe. -/
def selectableOptionsForPrefix (w : Widget) (q : Option String) : List String :=
  List.insertionSort StrLe
    (((w.options.filter (fun o => !o.selected)).map (fun o => o.display)).filter
      (fun h => match q with
        | none => true
        | some p => jsStartsWith h p))

/-- The chip-row ids demanded by the selected options of an option
list, for a widget with the given select element id, in backing
order. -/
def chipIDsOf (wid : String) (l : List OptionRec) : List String :=
  (l.filter (fun o => o.selected)).map
    (fun o => wid ++ "-option-" ++ replaceFirstSpace o.value)

/-- The chip-row ids demanded by the selected options of the backing
select element, in backing order. -/
def chipIDs (w : Widget) : List String :=
  chipIDsOf w.id w.options

/-- The one-to-one correspondence of the displayed chip rows with the
selected options: the chip list is a permutation of the ids of the
selected options (chips are in selection order, the backing list in
insertion order). -/
def ChipInvariant (w : Widget) : Prop :=
  w.chips.Perm (chipIDs w)

instance (w : Widget) : Decidable (ChipInvariant w) :=
  inferInstanceAs (Decidable (w.chips.Perm (chipIDs w)))

/-- The space-sanitised values of the backing options; makeOptionID is
injective exactly on values with distinct sanitised forms. -/
def sanitizedValues (w : Widget) : List String :=
  w.options.map (fun o => replaceFirstSpace o.value)

/-- The public mutating operations of the widget: addOption, the
handle-based select/deselect/remove (the handle being the index of the
option element in the live collection) and their value-keyed variants. -/
inductive MSOp where
  | add (v d : String)
  | selectIdx (i : Nat)
  | deselectIdx (i : Nat)
  | removeIdx (i : Nat)
  | selectVal (v : String)
  | deselectVal (v : String)
  | removeVal (v : String)
deriving DecidableEq

/-- One public operation applied to the widget; a thrown NotFoundError
leaves the state as it was. -/
def applyOp : MSOp → Widget → Widget
  | .add v d, w => addOption w v d
  | .selectIdx i, w => selectOption w i
  | .deselectIdx i, w => deselectOption w i
  | .removeIdx i, w => removeOption w i
  | .selectVal v, w => runExc w (selectOptionWithValue w v)
  | .deselectVal v, w => runExc w (deselectOptionWithValue w v)
  | .removeVal v, w => runExc w (removeOptionWithValue w v)

/-- The side condition the chip correspondence needs of addOption: the
added value must not collide, after space sanitisation, with the
sanitised value of a distinct existing option. -/
def OpSafe : MSOp → Widget → Prop
  | .add v _, w =>
      containsOptionWithValue w v = true ∨ replaceFirstSpace v ∉ sanitizedValues w
  | _, _ => True

/-- A sequence of public operations applied in order. -/
def execOps : List MSOp → Widget → Widget
  | [], w => w
  | op :: ops, w => execOps ops (applyOp op w)

/-- The add/remove fragment used by the net-presence property: addOption
and removeOptionWithValue calls. -/
inductive AROp where
  | add (v d : String)
  | remove (v : String)
deriving DecidableEq

/-- The value an add/remove call is keyed by. -/
def arValue : AROp → String
  | .add v _ => v
  | .remove v => v

/-- The add/remove call as a widget operation. -/
def arToMS : AROp → MSOp
  | .add v d => .add v d
  | .remove v => .removeVal v

/-- Run a sequence of add/remove calls on the widget. -/
def execAR (ops : List AROp) (w : Widget) : Widget :=
  execOps (ops.map arToMS) w

/-- One step of the net-presence bookkeeping of a value: an add of the
value makes it present, a remove makes it absent, any other call leaves
it alone. -/
def netStep (op : AROp) (v : String) (b : Bool) : Bool :=
  match op with
  | .add u _ => if u = v then true else b
  | .remove u => if u = v then false else b

/-- Net presence of a value over a call sequence, from a given starting
presence. -/
def netFrom : List AROp → String → Bool → Bool
  | [], _, b => b
  | op :: ops, v, b => netFrom ops v (netStep op v b)

/-- A value is net-present when it has been added and not subsequently
removed, starting from a fresh widget. -/
def netPresent (ops : List AROp) (v : String) : Bool :=
  netFrom ops v false

/-- The values the add calls of a sequence introduce, in call order. -/
def addedValues (ops : List AROp) : List String :=
  ops.filterMap (fun op => match op with
    | .add v _ => some v
    | .remove _ => none)

/-- The whitespace class the all-whitespace query guard is about. -/
def isWhitespaceChar (c : Char) : Bool :=
  c == ' ' || c == '\t' || c == '\n' || c == '\r'

/-- JS toLowerCase restricted to the ASCII case-insensitive comparisons
the spec asks of the default search. -/
def jsToLower (s : String) : String :=
  ⟨s.data.map Char.toLower⟩

/-- Whether p occurs as a contiguous run inside l. -/
def isInfixB (p : List Char) : List Char → Bool
  | [] => p.isEmpty
  | c :: t => p.isPrefixOf (c :: t) || isInfixB p t

/-- JS s.indexOf(sub) successfulness: sub occurs inside s. -/
def containsSubstring (s sub : String) : Bool :=
  isInfixB sub.data s.data

/-- Modelled from the spec: the result shape of a search function of the
newer MultipleSelect generation, whose implementation is absent from
src/ (only its tests survive): an ordered result list and the
tooManyResults policy flag. -/
structure SearchFnResult where
  results : List String
  tooManyResults : Bool
deriving DecidableEq

/-- Modelled from the spec: the view state Searcher.search leaves behind
(result rows, custom-add row visibility, dropdown visibility); the
Searcher implementation is absent from src/. -/
structure SearchViewState where
  resultRows : List String
  customAddVisible : Bool
  resultsVisible : Bool
deriving DecidableEq

/-- Modelled from the spec: the default search function of the newer
MultipleSelect (implementation absent from src/) - the alphabetically
sorted display texts of the unselected options containing the query as
a case-insensitive substring, all of them on an empty or absent query;
tooManyResults is a policy hook left false. -/
def specDefaultSearch (w : Widget) (q : Option String) : SearchFnResult :=
  { results := List.insertionSort StrLe
      (((w.options.filter (fun o => !o.selected)).map (fun o => o.display)).filter
        (fun d => match q with
          | none => true
          | some s => if s.isEmpty then true
                      else containsSubstring (jsToLower d) (jsToLower s))),
    tooManyResults := false }

/-- Modelled from the spec: Searcher.search steps 1-7 of section 4.2,
whose implementation is absent from src/ (only its tests survive).
Step 1 closes everything on an all-whitespace query; step 2 closes on
an empty query with no unselected option left; step 4 shows the
custom-add row iff custom add is enabled, the query is non-empty and
the results hold no case-sensitive exact match of it; step 7 opens the
dropdown iff an interactive row exists. -/
def searcherSearch (customAddEnabled : Bool) (w : Widget)
    (f : String → SearchFnResult) (q : String) : SearchViewState :=
  if !q.isEmpty && q.data.all isWhitespaceChar then ⟨[], false, false⟩
  else if q.isEmpty && (w.options.filter (fun o => !o.selected)).isEmpty then
    ⟨[], false, false⟩
  else
    let r := f q
    let ca := customAddEnabled && !q.isEmpty && !(r.results.contains q)
    ⟨r.results, ca, ca || !r.results.isEmpty⟩

/-- The widget of the repository's test fixture: options one, two,
three, none selected. -/
def w3 : Widget :=
  { freshWidget "multiple-select" with
    options := [⟨"one", "One", false⟩, ⟨"two", "Two", false⟩,
                ⟨"three", "Three", false⟩] }

/-- An empty multiple select element with id sel. -/
def elSel : ElementDesc :=
  { tagName := "SELECT", multipleAttr := some "multiple",
    elemId := some "sel", options := [] }

/-- The widget the constructor builds on elSel. -/
def wSel : Widget :=
  freshWidget "sel"

/-- A widget with the single option one selected and its chip displayed. -/
def wSelOne : Widget :=
  { freshWidget "ms" with
    options := [⟨"one", "One", true⟩], chips := ["ms-option-one"] }

/-- The element ids the widget owns beside the chips: select id, display
container, chip list, input row and input box. -/
def chromeIds (w : Widget) : List String :=
  [w.id, w.displayId, w.optionListId, w.inputOptionId, w.inputId]

/-- A widget with the single unselected option one and no chips. -/
def wOne : Widget :=
  { freshWidget "ms" with options := [⟨"one", "One", false⟩] }

/-- A call sequence whose two distinct values collide after space
sanitisation: both a b and a-b make the chip id ms-option-a-b. -/
def collideOps : List MSOp :=
  [MSOp.add "a b" "AB", MSOp.add "a-b" "AB2",
   MSOp.selectVal "a b", MSOp.deselectVal "a-b"]

theorem charListLe_total (a : List Char) : ∀ (b : List Char),
    charListLe a b = true ∨ charListLe b a = true := by
  induction a with
  | nil => intro b; left; rfl
  | cons x xs ih =>
    intro b
    cases b with
    | nil => right; rfl
    | cons y ys =>
      by_cases h1 : x.toNat < y.toNat
      · left; simp [charListLe, h1]
      · by_cases h2 : y.toNat < x.toNat
        · right; simp [charListLe, h2]
        · rcases ih ys with h | h
          · left; simp [charListLe, h1, h2, h]
          · right; simp [charListLe, h1, h2, h]

theorem charListLe_trans (a : List Char) : ∀ (b c : List Char),
    charListLe a b = true → charListLe b c = true → charListLe a c = true := by
  induction a with
  | nil => intro b c _ _; rfl
  | cons x xs ih =>
    intro b c h1 h2
    cases b with
    | nil => simp [charListLe] at h1
    | cons y ys =>
      cases c with
      | nil => simp [charListLe] at h2
      | cons z zs =>
        simp only [charListLe] at h1 h2 ⊢
        by_cases hxy : x.toNat < y.toNat <;> by_cases hyx : y.toNat < x.toNat <;>
          by_cases hyz : y.toNat < z.toNat <;> by_cases hzy : z.toNat < y.toNat <;>
          by_cases hxz : x.toNat < z.toNat <;> by_cases hzx : z.toNat < x.toNat <;>
          simp_all <;>
          first
          | omega
          | exact ih ys zs h1 h2
          | exact Or.inl (by omega)
          | exact Or.inr (ih ys zs h1 h2)

instance : IsTotal String StrLe :=
  ⟨fun a b => charListLe_total a.data b.data⟩

instance : IsTrans String StrLe :=
  ⟨fun a b c h1 h2 => charListLe_trans a.data b.data c.data h1 h2⟩

theorem strAppend_left_cancel {a b c : String} (h : a ++ b = a ++ c) : b = c := by
  apply String.ext
  have hd := congrArg String.data h
  rw [String.data_append, String.data_append] at hd
  exact List.append_cancel_left hd

theorem findOptionIdx_none_iff (v : String) (l : List OptionRec) :
    findOptionIdx v l = none ↔ ∀ o ∈ l, o.value ≠ v := by
  induction l with
  | nil => simp [findOptionIdx]
  | cons o os ih =>
    by_cases h : o.value = v
    · simp [findOptionIdx, h]
    · simp [findOptionIdx, h, ih, Option.map_eq_none']

theorem findOptionIdx_some (v : String) (l : List OptionRec) : ∀ (i : Nat),
    findOptionIdx v l = some i → ∃ o, l[i]? = some o ∧ o.value = v := by
  induction l with
  | nil => intro i h; simp [findOptionIdx] at h
  | cons o os ih =>
    intro i h
    by_cases hv : o.value = v
    · simp [findOptionIdx, hv] at h
      exact ⟨o, by simp [← h], hv⟩
    · simp [findOptionIdx, hv, Option.map_eq_some'] at h
      obtain ⟨j, hj, hji⟩ := h
      obtain ⟨o', ho', hval⟩ := ih j hj
      exact ⟨o', by simp [← hji, ho'], hval⟩

theorem containsOptionWithValue_iff (w : Widget) (v : String) :
    containsOptionWithValue w v = true ↔ ∃ o ∈ w.options, o.value = v := by
  unfold containsOptionWithValue findOptionWithValue
  constructor
  · intro h
    cases hfind : findOptionIdx v w.options with
    | none => rw [hfind] at h; simp at h
    | some i =>
      obtain ⟨o, ho, hv⟩ := findOptionIdx_some v w.options i hfind
      obtain ⟨hlt, hgo⟩ := List.getElem?_eq_some_iff.mp ho
      exact ⟨o, hgo ▸ List.getElem_mem hlt, hv⟩
  · intro h
    obtain ⟨o, ho, hv⟩ := h
    cases hfind : findOptionIdx v w.options with
    | none => exact absurd hv ((findOptionIdx_none_iff v w.options).mp hfind o ho)
    | some i => simp

/-- C1 (amended): selectableOptionsForPrefix returns the display texts of
exactly those unselected options whose display text starts with the query
under case-sensitive comparison (all unselected display texts when the
query is empty or absent), sorted in ascending lexicographic order: the
result is a sorted permutation of the filtered unselected displays, and a
string belongs to it iff it is the display of an unselected option
matching the query. -/
theorem selectableOptionsForPrefix_spec (w : Widget) (q : Option String) :
    (selectableOptionsForPrefix w q).Perm
      (((w.options.filter (fun o => !o.selected)).map (fun o => o.display)).filter
        (fun h => match q with | none => true | some p => jsStartsWith h p))
    ∧ (selectableOptionsForPrefix w q).Sorted StrLe
    ∧ (∀ s, s ∈ selectableOptionsForPrefix w q ↔
        (∃ o, o ∈ w.options ∧ o.selected = false ∧ o.display = s) ∧
          ∀ p, q = some p → jsStartsWith s p = true) := by
  refine ⟨List.perm_insertionSort _ _, List.sorted_insertionSort _ _, fun s => ?_⟩
  unfold selectableOptionsForPrefix
  rw [(List.perm_insertionSort StrLe _).mem_iff]
  cases q with
  | none =>
    simp only [List.mem_filter, List.mem_map, Bool.not_eq_true']
    aesop
  | some p =>
    simp only [List.mem_filter, List.mem_map, Bool.not_eq_true']
    aesop

/-- C1 counterexample: over the unselected options One, Two, Three the
claim demands that search "t" return the case-insensitive substring
matches Three and Two, but the source filters by case-sensitive prefix
and returns nothing. -/
theorem selectableOptionsForPrefix_cex :
    selectableOptionsForPrefix w3 (some "t") = [] ∧
      selectableOptionsForPrefix w3 (some "t") ≠ ["Three", "Two"] := by
  decide

theorem removeAllLoop_options (k : Nat) : ∀ (w : Widget),
    k ≤ w.options.length → (removeAllLoop k w).options = w.options.drop k := by
  induction k with
  | zero => intro w _; rw [List.drop_zero]; rfl
  | succ k ih =>
    intro w h
    have hk : k < w.options.length := h
    have hopt : w.options[k]? = some w.options[k] := List.getElem?_eq_getElem hk
    have hrem : (removeOption w k).options =
        w.options.take k ++ w.options.drop (k + 1) := by
      simp [removeOption, hopt, List.eraseIdx_eq_take_drop_succ]
    have hlen : (w.options.take k).length = k := by
      simp [List.length_take]; omega
    have hdrop : ∀ (l₁ l₂ : List OptionRec), l₁.length = k →
        List.drop k (l₁ ++ l₂) = l₂ := by
      intro l₁ l₂ hh
      rw [← hh, List.drop_left]
    show (removeAllLoop k (removeOption w k)).options = _
    rw [ih (removeOption w k) (by rw [hrem]; simp [List.length_take]; omega), hrem]
    exact hdrop (w.options.take k) (w.options.drop (k + 1)) hlen

/-- C10: after removeAllOptions the backing option list is empty and
containsOptionWithValue is false for every value; the reverse loop over
the live collection removes the current last option at every step. -/
theorem removeAllOptions_empties (w : Widget) (v : String) :
    (removeAllOptions w).options = [] ∧
      containsOptionWithValue (removeAllOptions w) v = false := by
  have h : (removeAllOptions w).options = [] := by
    unfold removeAllOptions
    rw [removeAllLoop_options w.options.length w (le_refl _), List.drop_length]
  refine ⟨h, ?_⟩
  unfold containsOptionWithValue findOptionWithValue
  rw [h]
  rfl

/-- C3: each value-keyed operation throws the NotFoundError exactly when
no option with the value exists, the throw happening before any state
change so the backing list, selection states and chips are untouched;
when an option with the value exists the operation returns normally. -/
theorem valueKeyedOps_notFound (w : Widget) (v : String) :
    ((∀ o ∈ w.options, o.value ≠ v) →
      selectOptionWithValue w v = .error (.notFound v)
      ∧ deselectOptionWithValue w v = .error (.notFound v)
      ∧ removeOptionWithValue w v = .error (.notFound v)
      ∧ runExc w (selectOptionWithValue w v) = w
      ∧ runExc w (deselectOptionWithValue w v) = w
      ∧ runExc w (removeOptionWithValue w v) = w)
    ∧ ((∃ o ∈ w.options, o.value = v) →
      (∃ w₁, selectOptionWithValue w v = .ok w₁)
      ∧ (∃ w₁, deselectOptionWithValue w v = .ok w₁)
      ∧ (∃ w₁, removeOptionWithValue w v = .ok w₁)) := by
  constructor
  · intro h
    have hnone : findOptionWithValue w v = none :=
      (findOptionIdx_none_iff v w.options).mpr h
    simp [selectOptionWithValue, deselectOptionWithValue, removeOptionWithValue,
      hnone, runExc]
  · intro h
    obtain ⟨o, ho, hv⟩ := h
    cases hfind : findOptionWithValue w v with
    | none => exact absurd hv ((findOptionIdx_none_iff v w.options).mp hfind o ho)
    | some i =>
      simp [selectOptionWithValue, deselectOptionWithValue, removeOptionWithValue,
        hfind]

/-- C4: construction fails exactly when the bound element is not a
SELECT or lacks multiple equal to multiple; both failures return an
error carrying no widget, and on a conforming element construction
returns a widget. -/
theorem newMultipleSelect_config (c : Nat) (el : ElementDesc) :
    (el.tagName = "SELECT" ∧ el.multipleAttr = some "multiple" →
      ∃ w, newMultipleSelect c el = .ok w)
    ∧ (el.tagName ≠ "SELECT" → newMultipleSelect c el = .error .notSelect)
    ∧ (el.tagName = "SELECT" → el.multipleAttr ≠ some "multiple" →
      newMultipleSelect c el = .error .notMultiple) := by
  refine ⟨?_, ?_, ?_⟩
  · rintro ⟨h1, h2⟩
    unfold newMultipleSelect
    rw [if_neg (by simp [h1]), if_neg (by simp [h2])]
    exact ⟨_, rfl⟩
  · intro h1
    simp [newMultipleSelect, h1]
  · intro h1 h2
    simp [newMultipleSelect, h1, h2]

/-- C5: selectOption on an option whose id already has a chip row leaves
the widget entirely unchanged; on an option with no chip it marks it
selected and appends the chip row at the end of the chip list, that is
immediately before the input row; selectOptionWithValue delegates to
selectOption on the found handle. -/
theorem selectOption_idempotent (w : Widget) (i : Nat) (o : OptionRec)
    (h : w.options[i]? = some o) :
    (w.chips.contains (makeOptionID w o.value) = true → selectOption w i = w)
    ∧ (w.chips.contains (makeOptionID w o.value) = false →
        selectOption w i =
          { w with options := w.options.set i { o with selected := true },
                   chips := w.chips ++ [makeOptionID w o.value] })
    ∧ (∀ j, findOptionWithValue w o.value = some j →
        selectOptionWithValue w o.value = .ok (selectOption w j)) := by
  refine ⟨?_, ?_, ?_⟩
  · intro hc
    simp only [selectOption, h]
    rw [if_pos hc]
  · intro hc
    simp only [selectOption, h]
    rw [if_neg (by simpa using hc)]
  · intro j hj
    simp [selectOptionWithValue, hj]

/-- C5 witness: on a widget whose only option already has its chip
displayed, selectOption is a no-op. -/
theorem selectOption_idempotent_witness :
    selectOption wSelOne 0 = wSelOne :=
  (selectOption_idempotent wSelOne 0 ⟨"one", "One", true⟩ (by decide)).1 (by decide)

theorem selectOption_chrome (w : Widget) (i : Nat) :
    chromeIds (selectOption w i) = chromeIds w := by
  unfold selectOption
  cases w.options[i]? with
  | none => rfl
  | some o =>
    simp only []
    split
    · rfl
    · rfl

theorem rebuildFold_chrome (idxs : List Nat) : ∀ (acc : Widget),
    chromeIds (idxs.foldl rebuildStep acc) = chromeIds acc := by
  induction idxs with
  | nil => intro acc; rfl
  | cons i is ih =>
    intro acc
    rw [List.foldl_cons, ih]
    unfold rebuildStep
    cases acc.options[i]? with
    | none => rfl
    | some o =>
      simp only []
      split
      · exact selectOption_chrome acc i
      · rfl

theorem rebuildDisplay_chrome (w : Widget) :
    chromeIds (rebuildDisplay w) =
      [w.id, w.displayId, w.optionListId,
        w.id ++ "-input-option", w.id ++ "-input"] := by
  unfold rebuildDisplay
  rw [rebuildFold_chrome]
  rfl

/-- C9 (amended): a widget constructed on an element with id nm carries
exactly the element ids nm-display, nm-option-list, nm-input-option and
nm-input, and assigns the chip of an option with a given value the id
nm-option- followed by the value with its first space replaced by a
hyphen (JS replace with a string pattern replaces only the first
occurrence). -/
theorem elementIds_derived (c : Nat) (el : ElementDesc) (nm : String)
    (w : Widget) (h1 : el.elemId = some nm)
    (h2 : newMultipleSelect c el = .ok w) :
    w.id = nm
    ∧ w.displayId = nm ++ "-display"
    ∧ w.optionListId = nm ++ "-option-list"
    ∧ w.inputOptionId = nm ++ "-input-option"
    ∧ w.inputId = nm ++ "-input"
    ∧ ∀ v, makeOptionID w v = nm ++ "-option-" ++ replaceFirstSpace v := by
  unfold newMultipleSelect at h2
  split at h2
  · exact absurd h2 (by simp)
  · split at h2
    · exact absurd h2 (by simp)
    · simp only [h1, Option.getD_some, Except.ok.injEq] at h2
      have hch := rebuildDisplay_chrome
        { id := nm, options := el.options, chips := [],
          displayId := nm ++ "-display",
          optionListId := nm ++ "-option-list",
          inputOptionId := nm ++ "-input-option",
          inputId := nm ++ "-input" }
      rw [h2] at hch
      simp only [chromeIds, List.cons.injEq, and_true] at hch
      obtain ⟨hid, hdisp, hlist, hinopt, hin⟩ := hch
      refine ⟨hid, hdisp, hlist, hinopt, hin, fun v => ?_⟩
      unfold makeOptionID
      rw [hid]

/-- C9 witness: the constructor on an empty multiple select with id sel
produces exactly the derived element ids. -/
theorem elementIds_derived_witness :
    wSel.id = "sel"
    ∧ wSel.displayId = "sel" ++ "-display"
    ∧ wSel.optionListId = "sel" ++ "-option-list"
    ∧ wSel.inputOptionId = "sel" ++ "-input-option"
    ∧ wSel.inputId = "sel" ++ "-input"
    ∧ ∀ v, makeOptionID wSel v = "sel" ++ "-option-" ++ replaceFirstSpace v :=
  elementIds_derived 1 elSel "sel" wSel rfl rfl

/-- C9 counterexample: for the value with two spaces the claim demands
the chip id with all spaces replaced, but only the first space is
replaced. -/
theorem elementIds_cex :
    makeOptionID wSel "a b c" = "sel-option-a-b c" ∧
      makeOptionID wSel "a b c" ≠ "sel-option-a-b-c" := by
  decide

theorem contains_addOption (w : Widget) (u d v : String) :
    containsOptionWithValue (addOption w u d) v =
      (if u = v then true else containsOptionWithValue w v) := by
  by_cases hc : containsOptionWithValue w u
  · rw [addOption, if_pos hc]
    by_cases huv : u = v
    · rw [if_pos huv]
      subst huv
      exact hc
    · rw [if_neg huv]
  · rw [addOption, if_neg hc]
    by_cases huv : u = v
    · rw [if_pos huv]
      exact (containsOptionWithValue_iff _ v).mpr
        ⟨⟨u, d, false⟩, List.mem_append_right _ (List.mem_singleton.mpr rfl), huv⟩
    · rw [if_neg huv]
      rw [Bool.eq_iff_iff, containsOptionWithValue_iff, containsOptionWithValue_iff]
      constructor
      · rintro ⟨o, ho, hv⟩
        rcases List.mem_append.mp ho with h | h
        · exact ⟨o, h, hv⟩
        · rw [List.mem_singleton.mp h] at hv
          exact absurd hv huv
      · rintro ⟨o, ho, hv⟩
        exact ⟨o, List.mem_append_left _ ho, hv⟩

theorem contains_removeVal (w : Widget) (u v : String)
    (hnd : (w.options.map (fun o => o.value)).Nodup) :
    containsOptionWithValue (runExc w (removeOptionWithValue w u)) v =
      (if u = v then false else containsOptionWithValue w v) := by
  cases hfind : findOptionWithValue w u with
  | none =>
    have hcu : ∀ o ∈ w.options, o.value ≠ u :=
      (findOptionIdx_none_iff u w.options).mp hfind
    have hsame : runExc w (removeOptionWithValue w u) = w := by
      simp [removeOptionWithValue, hfind, runExc]
    rw [hsame]
    by_cases huv : u = v
    · rw [if_pos huv]
      subst huv
      cases hcv : containsOptionWithValue w u with
      | false => rfl
      | true =>
        obtain ⟨o, ho, hv⟩ := (containsOptionWithValue_iff w u).mp hcv
        exact absurd hv (hcu o ho)
    · rw [if_neg huv]
  | some i =>
    obtain ⟨o, ho, hv⟩ := findOptionIdx_some u w.options i hfind
    obtain ⟨hlt, hoi⟩ := List.getElem?_eq_some_iff.mp ho
    have hrm : (runExc w (removeOptionWithValue w u)).options =
        w.options.take i ++ w.options.drop (i + 1) := by
      simp [removeOptionWithValue, hfind, runExc, removeOption, ho,
        List.eraseIdx_eq_take_drop_succ]
    have hdecomp : w.options = w.options.take i ++ o :: w.options.drop (i + 1) := by
      conv_lhs => rw [← List.take_append_drop i w.options]
      rw [List.drop_eq_getElem_cons hlt, hoi]
    by_cases huv : u = v
    · rw [if_pos huv]
      subst huv
      cases hcv : containsOptionWithValue (runExc w (removeOptionWithValue w u)) u with
      | false => rfl
      | true =>
        obtain ⟨o', ho', hv'⟩ :=
          (containsOptionWithValue_iff (runExc w (removeOptionWithValue w u)) u).mp hcv
        rw [hrm] at ho'
        have hndm : ((w.options.take i ++ o :: w.options.drop (i + 1)).map
            (fun o => o.value)).Nodup := hdecomp ▸ hnd
        rw [List.map_append, List.map_cons] at hndm
        have hnotin := (List.nodup_cons.mp (List.nodup_middle.mp hndm)).1
        have : o'.value ∈ (w.options.take i).map (fun o => o.value) ++
            (w.options.drop (i + 1)).map (fun o => o.value) := by
          rcases List.mem_append.mp ho' with h | h
          · exact List.mem_append_left _ (List.mem_map_of_mem _ h)
          · exact List.mem_append_right _ (List.mem_map_of_mem _ h)
        rw [hv'] at this
        rw [← hv] at this
        exact absurd this hnotin
    · rw [if_neg huv]
      rw [Bool.eq_iff_iff, containsOptionWithValue_iff, containsOptionWithValue_iff]
      constructor
      · rintro ⟨o', ho', hv'⟩
        rw [hrm] at ho'
        refine ⟨o', ?_, hv'⟩
        rcases List.mem_append.mp ho' with h | h
        · exact (List.take_sublist i w.options).mem h
        · exact (List.drop_sublist (i + 1) w.options).mem h
      · rintro ⟨o', ho', hv'⟩
        refine ⟨o', ?_, hv'⟩
        rw [hrm]
        rw [hdecomp] at ho'
        rcases List.mem_append.mp ho' with h | h
        · exact List.mem_append_left _ h
        · rcases List.mem_cons.mp h with h' | h'
          · rw [h'] at hv'
            rw [hv] at hv'
            exact absurd hv' huv
          · exact List.mem_append_right _ h'

theorem valuesNodup_step (w : Widget) (op : AROp)
    (h : (w.options.map (fun o => o.value)).Nodup) :
    ((applyOp (arToMS op) w).options.map (fun o => o.value)).Nodup := by
  cases op with
  | add u d =>
    show ((addOption w u d).options.map (fun o => o.value)).Nodup
    by_cases hc : containsOptionWithValue w u
    · rw [addOption, if_pos hc]
      exact h
    · rw [addOption, if_neg hc]
      show ((w.options ++ [OptionRec.mk u d false]).map
        (fun o : OptionRec => o.value)).Nodup
      rw [List.map_append]
      rw [List.nodup_append]
      refine ⟨h, List.nodup_singleton u, ?_⟩
      intro x hx hxu
      rw [List.mem_singleton.mp hxu] at hx
      obtain ⟨o, ho, hval⟩ := List.mem_map.mp hx
      exact hc ((containsOptionWithValue_iff w u).mpr ⟨o, ho, hval⟩)
  | remove u =>
    show (((runExc w (removeOptionWithValue w u)).options).map (fun o => o.value)).Nodup
    cases hfind : findOptionWithValue w u with
    | none =>
      have hsame : runExc w (removeOptionWithValue w u) = w := by
        simp [removeOptionWithValue, hfind, runExc]
      rw [hsame]
      exact h
    | some i =>
      obtain ⟨o, ho, hv⟩ := findOptionIdx_some u w.options i hfind
      have hrm : (runExc w (removeOptionWithValue w u)).options =
          w.options.eraseIdx i := by
        simp [removeOptionWithValue, hfind, runExc, removeOption, ho]
      rw [hrm]
      exact List.Nodup.sublist ((List.eraseIdx_sublist w.options i).map _) h

theorem contains_execAR (ops : List AROp) : ∀ (w : Widget) (v : String),
    (w.options.map (fun o => o.value)).Nodup →
    containsOptionWithValue (execAR ops w) v =
      netFrom ops v (containsOptionWithValue w v) := by
  induction ops with
  | nil => intro w v _; rfl
  | cons op ops ih =>
    intro w v hnd
    show containsOptionWithValue (execAR ops (applyOp (arToMS op) w)) v =
      netFrom ops v (netStep op v (containsOptionWithValue w v))
    rw [ih (applyOp (arToMS op) w) v (valuesNodup_step w op hnd)]
    congr 1
    cases op with
    | add u d => exact contains_addOption w u d v
    | remove u => exact contains_removeVal w u v hnd

/-- C6: for every finite sequence of addOption and removeOptionWithValue
calls whose added values are pairwise distinct, applied to a fresh
widget, containsOptionWithValue answers exactly the net presence of the
value: added and not subsequently removed. -/
theorem containsOption_net (ops : List AROp) (v s : String)
    (hdisc : (addedValues ops).Nodup) :
    containsOptionWithValue (execAR ops (freshWidget s)) v = netPresent ops v := by
  rw [contains_execAR ops (freshWidget s) v (by simp [freshWidget])]
  rfl

/-- C6 witness: adding a then removing a then adding b nets to absence
of a and presence of b. -/
theorem containsOption_net_witness :
    containsOptionWithValue
        (execAR [AROp.add "a" "A", AROp.remove "a", AROp.add "b" "B"]
          (freshWidget "ms")) "a" =
      netPresent [AROp.add "a" "A", AROp.remove "a", AROp.add "b" "B"] "a" :=
  containsOption_net [AROp.add "a" "A", AROp.remove "a", AROp.add "b" "B"]
    "a" "ms" (by decide)

theorem optionId_inj (wid : String) {a b : String}
    (h : wid ++ "-option-" ++ a = wid ++ "-option-" ++ b) : a = b :=
  strAppend_left_cancel h

theorem chipIDsOf_append (wid : String) (l₁ l₂ : List OptionRec) :
    chipIDsOf wid (l₁ ++ l₂) = chipIDsOf wid l₁ ++ chipIDsOf wid l₂ := by
  unfold chipIDsOf
  rw [List.filter_append, List.map_append]

theorem chipIDsOf_cons_true (wid : String) (o : OptionRec) (l : List OptionRec)
    (h : o.selected = true) :
    chipIDsOf wid (o :: l) =
      (wid ++ "-option-" ++ replaceFirstSpace o.value) :: chipIDsOf wid l := by
  unfold chipIDsOf
  rw [List.filter_cons, if_pos h, List.map_cons]

theorem chipIDsOf_cons_false (wid : String) (o : OptionRec) (l : List OptionRec)
    (h : o.selected = false) :
    chipIDsOf wid (o :: l) = chipIDsOf wid l := by
  unfold chipIDsOf
  rw [List.filter_cons, if_neg (by simp [h])]

theorem chipIDs_nodup (w : Widget) (h2 : (sanitizedValues w).Nodup) :
    (chipIDs w).Nodup := by
  unfold chipIDs chipIDsOf
  have hrw : (w.options.filter (fun o => o.selected)).map
      (fun o => w.id ++ "-option-" ++ replaceFirstSpace o.value) =
      ((w.options.filter (fun o => o.selected)).map
        (fun o => replaceFirstSpace o.value)).map
        (fun s => w.id ++ "-option-" ++ s) := by
    rw [List.map_map]
    rfl
  rw [hrw]
  refine List.Nodup.map (fun a b hab => strAppend_left_cancel hab) ?_
  exact List.Nodup.sublist ((List.filter_sublist w.options).map _) h2

theorem optionDecomp (w : Widget) {i : Nat} {o : OptionRec}
    (hopt : w.options[i]? = some o) :
    w.options = w.options.take i ++ o :: w.options.drop (i + 1) := by
  obtain ⟨hlt, hoi⟩ := List.getElem?_eq_some_iff.mp hopt
  conv_lhs => rw [← List.take_append_drop i w.options]
  rw [List.drop_eq_getElem_cons hlt, hoi]

theorem chip_not_mem_of_unselected (w : Widget) {i : Nat} {o : OptionRec}
    (hopt : w.options[i]? = some o) (hs : o.selected = false)
    (h1 : ChipInvariant w) (h2 : (sanitizedValues w).Nodup) :
    makeOptionID w o.value ∉ w.chips := by
  obtain ⟨hlt, hoi⟩ := List.getElem?_eq_some_iff.mp hopt
  intro hmem
  have hcid : makeOptionID w o.value ∈ chipIDs w := h1.mem_iff.mp hmem
  unfold chipIDs chipIDsOf at hcid
  obtain ⟨o', ho', hid⟩ := List.mem_map.mp hcid
  have ho'mem : o' ∈ w.options := (List.mem_filter.mp ho').1
  have ho'sel : o'.selected = true := (List.mem_filter.mp ho').2
  have hsan : replaceFirstSpace o'.value = replaceFirstSpace o.value :=
    optionId_inj w.id hid
  have homem : o ∈ w.options := hoi ▸ List.getElem_mem hlt
  have heq : o' = o := List.inj_on_of_nodup_map h2 ho'mem homem hsan
  rw [heq, hs] at ho'sel
  exact Bool.false_ne_true ho'sel

theorem chips_erase_perm (w : Widget) {i : Nat} {o : OptionRec}
    (hopt : w.options[i]? = some o) (hs : o.selected = true)
    (h1 : ChipInvariant w) (h2 : (sanitizedValues w).Nodup) :
    (w.chips.erase (makeOptionID w o.value)).Perm
      (chipIDsOf w.id (w.options.take i) ++
        chipIDsOf w.id (w.options.drop (i + 1))) := by
  have hdecomp := optionDecomp w hopt
  have hperm : w.chips.Perm
      (chipIDsOf w.id (w.options.take i) ++
        makeOptionID w o.value :: chipIDsOf w.id (w.options.drop (i + 1))) := by
    have h := h1
    unfold ChipInvariant chipIDs at h
    rw [hdecomp, chipIDsOf_append, chipIDsOf_cons_true _ _ _ hs] at h
    exact h
  have hnd : (chipIDs w).Nodup := chipIDs_nodup w h2
  unfold chipIDs at hnd
  rw [hdecomp, chipIDsOf_append, chipIDsOf_cons_true _ _ _ hs] at hnd
  have hnotA : makeOptionID w o.value ∉ chipIDsOf w.id (w.options.take i) := by
    have h' := (List.nodup_cons.mp (List.nodup_middle.mp hnd)).1
    intro hmem
    exact h' (List.mem_append_left _ hmem)
  have hstep : (chipIDsOf w.id (w.options.take i) ++
      makeOptionID w o.value :: chipIDsOf w.id (w.options.drop (i + 1))).erase
        (makeOptionID w o.value) =
      chipIDsOf w.id (w.options.take i) ++
        chipIDsOf w.id (w.options.drop (i + 1)) := by
    rw [List.erase_append_right _ hnotA, List.erase_cons_head]
  have h := hperm.erase (makeOptionID w o.value)
  rw [hstep] at h
  exact h

theorem chipInv_selectOption (w : Widget) (i : Nat) (h1 : ChipInvariant w) :
    ChipInvariant (selectOption w i) := by
  cases hopt : w.options[i]? with
  | none => simp only [selectOption, hopt]; exact h1
  | some o =>
    obtain ⟨hlt, hoi⟩ := List.getElem?_eq_some_iff.mp hopt
    by_cases hc : w.chips.contains (makeOptionID w o.value) = true
    · simp only [selectOption, hopt]
      rw [if_pos hc]
      exact h1
    · have hs : o.selected = false := by
        cases hsel : o.selected with
        | false => rfl
        | true =>
          have hmem : makeOptionID w o.value ∈ chipIDs w := by
            unfold chipIDs chipIDsOf
            exact List.mem_map_of_mem _
              (List.mem_filter.mpr ⟨hoi ▸ List.getElem_mem hlt, hsel⟩)
          have hchips : makeOptionID w o.value ∈ w.chips := h1.mem_iff.mpr hmem
          exact absurd (by simpa using hchips) hc
      simp only [selectOption, hopt]
      rw [if_neg hc]
      show (w.chips ++ [makeOptionID w o.value]).Perm
        (chipIDsOf w.id (w.options.set i { o with selected := true }))
      rw [List.set_eq_take_cons_drop _ hlt, chipIDsOf_append,
        chipIDsOf_cons_true _ _ _ rfl]
      have hperm : w.chips.Perm
          (chipIDsOf w.id (w.options.take i) ++
            chipIDsOf w.id (w.options.drop (i + 1))) := by
        have h := h1
        unfold ChipInvariant chipIDs at h
        rw [optionDecomp w hopt, chipIDsOf_append,
          chipIDsOf_cons_false _ _ _ hs] at h
        exact h
      refine ((List.perm_append_singleton _ _).trans (hperm.cons _)).trans ?_
      exact List.perm_middle.symm

theorem chipInv_deselectOption (w : Widget) (i : Nat) (h1 : ChipInvariant w)
    (h2 : (sanitizedValues w).Nodup) : ChipInvariant (deselectOption w i) := by
  cases hopt : w.options[i]? with
  | none => simp only [deselectOption, hopt]; exact h1
  | some o =>
    obtain ⟨hlt, hoi⟩ := List.getElem?_eq_some_iff.mp hopt
    simp only [deselectOption, hopt]
    show (w.chips.erase (makeOptionID w o.value)).Perm
      (chipIDsOf w.id (w.options.set i { o with selected := false }))
    rw [List.set_eq_take_cons_drop _ hlt, chipIDsOf_append,
      chipIDsOf_cons_false _ _ _ rfl]
    cases hs : o.selected with
    | true => exact chips_erase_perm w hopt hs h1 h2
    | false =>
      rw [List.erase_of_not_mem (chip_not_mem_of_unselected w hopt hs h1 h2)]
      have h := h1
      unfold ChipInvariant chipIDs at h
      rw [optionDecomp w hopt, chipIDsOf_append,
        chipIDsOf_cons_false _ _ _ hs] at h
      exact h

theorem chipInv_removeOption (w : Widget) (i : Nat) (h1 : ChipInvariant w)
    (h2 : (sanitizedValues w).Nodup) : ChipInvariant (removeOption w i) := by
  cases hopt : w.options[i]? with
  | none => simp only [removeOption, hopt]; exact h1
  | some o =>
    simp only [removeOption, hopt]
    show (w.chips.erase (makeOptionID w o.value)).Perm
      (chipIDsOf w.id (w.options.eraseIdx i))
    rw [List.eraseIdx_eq_take_drop_succ, chipIDsOf_append]
    cases hs : o.selected with
    | true => exact chips_erase_perm w hopt hs h1 h2
    | false =>
      rw [List.erase_of_not_mem (chip_not_mem_of_unselected w hopt hs h1 h2)]
      have h := h1
      unfold ChipInvariant chipIDs at h
      rw [optionDecomp w hopt, chipIDsOf_append,
        chipIDsOf_cons_false _ _ _ hs] at h
      exact h

theorem chipInv_addOption (w : Widget) (v d : String) (h1 : ChipInvariant w) :
    ChipInvariant (addOption w v d) := by
  by_cases hc : containsOptionWithValue w v = true
  · simp only [addOption]
    rw [if_pos hc]
    exact h1
  · simp only [addOption]
    rw [if_neg hc]
    show w.chips.Perm (chipIDsOf w.id (w.options ++ [OptionRec.mk v d false]))
    have hnil : chipIDsOf w.id [OptionRec.mk v d false] = [] := rfl
    rw [chipIDsOf_append, hnil, List.append_nil]
    exact h1

theorem san_selectOption (w : Widget) (i : Nat) :
    sanitizedValues (selectOption w i) = sanitizedValues w := by
  cases hopt : w.options[i]? with
  | none => simp only [selectOption, hopt]
  | some o =>
    obtain ⟨hlt, hoi⟩ := List.getElem?_eq_some_iff.mp hopt
    simp only [selectOption, hopt]
    split
    · rfl
    · show (w.options.set i { o with selected := true }).map
          (fun o => replaceFirstSpace o.value) =
        w.options.map (fun o => replaceFirstSpace o.value)
      rw [List.set_eq_take_cons_drop _ hlt]
      conv_rhs => rw [optionDecomp w hopt]
      rw [List.map_append, List.map_append, List.map_cons, List.map_cons]

theorem san_deselectOption (w : Widget) (i : Nat) :
    sanitizedValues (deselectOption w i) = sanitizedValues w := by
  cases hopt : w.options[i]? with
  | none => simp only [deselectOption, hopt]
  | some o =>
    obtain ⟨hlt, hoi⟩ := List.getElem?_eq_some_iff.mp hopt
    simp only [deselectOption, hopt]
    show (w.options.set i { o with selected := false }).map
        (fun o => replaceFirstSpace o.value) =
      w.options.map (fun o => replaceFirstSpace o.value)
    rw [List.set_eq_take_cons_drop _ hlt]
    conv_rhs => rw [optionDecomp w hopt]
    rw [List.map_append, List.map_append, List.map_cons, List.map_cons]

theorem san_removeOption_nodup (w : Widget) (i : Nat)
    (h2 : (sanitizedValues w).Nodup) :
    (sanitizedValues (removeOption w i)).Nodup := by
  cases hopt : w.options[i]? with
  | none => simp only [removeOption, hopt]; exact h2
  | some o =>
    simp only [removeOption, hopt]
    show ((w.options.eraseIdx i).map (fun o => replaceFirstSpace o.value)).Nodup
    exact List.Nodup.sublist ((List.eraseIdx_sublist w.options i).map _) h2

theorem san_addOption_nodup (w : Widget) (v d : String)
    (h2 : (sanitizedValues w).Nodup)
    (h3 : containsOptionWithValue w v = true ∨
      replaceFirstSpace v ∉ sanitizedValues w) :
    (sanitizedValues (addOption w v d)).Nodup := by
  by_cases hc : containsOptionWithValue w v = true
  · simp only [addOption]
    rw [if_pos hc]
    exact h2
  · simp only [addOption]
    rw [if_neg hc]
    have hnot : replaceFirstSpace v ∉ sanitizedValues w := h3.resolve_left hc
    show ((w.options ++ [OptionRec.mk v d false]).map
      (fun o : OptionRec => replaceFirstSpace o.value)).Nodup
    rw [List.map_append, List.nodup_append]
    refine ⟨h2, List.nodup_singleton _, ?_⟩
    intro x hx hxu
    have hxv : x = replaceFirstSpace v := by simpa using hxu
    rw [hxv] at hx
    exact hnot hx

theorem runSelectVal_none (w : Widget) (v : String)
    (h : findOptionWithValue w v = none) :
    runExc w (selectOptionWithValue w v) = w := by
  simp [selectOptionWithValue, h, runExc]

theorem runSelectVal_some (w : Widget) (v : String) (i : Nat)
    (h : findOptionWithValue w v = some i) :
    runExc w (selectOptionWithValue w v) = selectOption w i := by
  simp [selectOptionWithValue, h, runExc]

theorem runDeselectVal_none (w : Widget) (v : String)
    (h : findOptionWithValue w v = none) :
    runExc w (deselectOptionWithValue w v) = w := by
  simp [deselectOptionWithValue, h, runExc]

theorem runDeselectVal_some (w : Widget) (v : String) (i : Nat)
    (h : findOptionWithValue w v = some i) :
    runExc w (deselectOptionWithValue w v) = deselectOption w i := by
  simp [deselectOptionWithValue, h, runExc]

theorem runRemoveVal_none (w : Widget) (v : String)
    (h : findOptionWithValue w v = none) :
    runExc w (removeOptionWithValue w v) = w := by
  simp [removeOptionWithValue, h, runExc]

theorem runRemoveVal_some (w : Widget) (v : String) (i : Nat)
    (h : findOptionWithValue w v = some i) :
    runExc w (removeOptionWithValue w v) = removeOption w i := by
  simp [removeOptionWithValue, h, runExc]

/-- C2 (amended): provided the space-sanitised values of the backing
options are pairwise distinct and an added value does not collide with
an existing option's sanitised value, every public operation (addOption,
handle-based and value-keyed select/deselect/remove) preserves the
one-to-one correspondence between chip rows and selected options, and
preserves the distinctness of the sanitised values. -/
theorem chipInvariant_preserved (op : MSOp) (w : Widget)
    (h1 : ChipInvariant w) (h2 : (sanitizedValues w).Nodup)
    (h3 : OpSafe op w) :
    ChipInvariant (applyOp op w) ∧ (sanitizedValues (applyOp op w)).Nodup := by
  cases op with
  | add v d =>
    exact ⟨chipInv_addOption w v d h1, san_addOption_nodup w v d h2 h3⟩
  | selectIdx i =>
    refine ⟨chipInv_selectOption w i h1, ?_⟩
    show (sanitizedValues (selectOption w i)).Nodup
    rw [san_selectOption]
    exact h2
  | deselectIdx i =>
    refine ⟨chipInv_deselectOption w i h1 h2, ?_⟩
    show (sanitizedValues (deselectOption w i)).Nodup
    rw [san_deselectOption]
    exact h2
  | removeIdx i =>
    exact ⟨chipInv_removeOption w i h1 h2, san_removeOption_nodup w i h2⟩
  | selectVal v =>
    show ChipInvariant (runExc w (selectOptionWithValue w v)) ∧
      (sanitizedValues (runExc w (selectOptionWithValue w v))).Nodup
    cases h : findOptionWithValue w v with
    | none => rw [runSelectVal_none w v h]; exact ⟨h1, h2⟩
    | some i =>
      rw [runSelectVal_some w v i h]
      refine ⟨chipInv_selectOption w i h1, ?_⟩
      rw [san_selectOption]
      exact h2
  | deselectVal v =>
    show ChipInvariant (runExc w (deselectOptionWithValue w v)) ∧
      (sanitizedValues (runExc w (deselectOptionWithValue w v))).Nodup
    cases h : findOptionWithValue w v with
    | none => rw [runDeselectVal_none w v h]; exact ⟨h1, h2⟩
    | some i =>
      rw [runDeselectVal_some w v i h]
      refine ⟨chipInv_deselectOption w i h1 h2, ?_⟩
      rw [san_deselectOption]
      exact h2
  | removeVal v =>
    show ChipInvariant (runExc w (removeOptionWithValue w v)) ∧
      (sanitizedValues (runExc w (removeOptionWithValue w v))).Nodup
    cases h : findOptionWithValue w v with
    | none => rw [runRemoveVal_none w v h]; exact ⟨h1, h2⟩
    | some i =>
      rw [runRemoveVal_some w v i h]
      exact ⟨chipInv_removeOption w i h1 h2, san_removeOption_nodup w i h2⟩

/-- C2 witness: selecting the only option of a one-option widget
preserves the chip correspondence. -/
theorem chipInvariant_preserved_witness :
    ChipInvariant (applyOp (MSOp.selectIdx 0) wOne) ∧
      (sanitizedValues (applyOp (MSOp.selectIdx 0) wOne)).Nodup :=
  chipInvariant_preserved (MSOp.selectIdx 0) wOne (by decide) (by decide)
    True.intro

/-- C2 counterexample: the values a b and a-b collide to the chip id
ms-option-a-b; after add a b, add a-b, selectOptionWithValue a b,
deselectOptionWithValue a-b the option a b is still selected but its
chip row is gone, so the correspondence fails after a public
operation. -/
theorem chipInvariant_cex :
    (execOps collideOps (freshWidget "ms")).options =
      [⟨"a b", "AB", true⟩, ⟨"a-b", "AB2", false⟩]
    ∧ (execOps collideOps (freshWidget "ms")).chips = []
    ∧ ¬ ChipInvariant (execOps collideOps (freshWidget "ms")) := by
  decide

theorem isPrefixOf_self (l : List Char) : l.isPrefixOf l = true := by
  induction l with
  | nil => rfl
  | cons a as ih => simp [List.isPrefixOf, ih]

theorem isInfixB_self (p : List Char) : isInfixB p p = true := by
  cases p with
  | nil => rfl
  | cons c t => simp [isInfixB, isPrefixOf_self]

theorem specDefaultSearch_self_mem (w : Widget) (q : String) (o : OptionRec)
    (ho : o ∈ w.options) (hsel : o.selected = false) (hd : o.display = q) :
    q ∈ (specDefaultSearch w (some q)).results := by
  unfold specDefaultSearch
  simp only []
  rw [(List.perm_insertionSort StrLe _).mem_iff]
  apply List.mem_filter.mpr
  refine ⟨List.mem_map.mpr ⟨o, List.mem_filter.mpr ⟨ho, by simp [hsel]⟩, hd⟩, ?_⟩
  by_cases he : q.isEmpty = true
  · simp [he]
  · simp only [he, if_false, Bool.if_false_right]
    show containsSubstring (jsToLower q) (jsToLower q) = true
    exact isInfixB_self _

/-- C8 (amended): for every Searcher.search invocation the custom-add
row is visible iff custom add is enabled, the query is non-empty AND not
all-whitespace, and the returned results hold no case-sensitive exact
match of the query (an all-whitespace query closes the dropdown along
with the custom-add row, per step 1); in particular, under the default
search a query equal to the display text of an unselected option never
shows the custom-add row. -/
theorem searcherCustomAdd_spec (e : Bool) (w : Widget)
    (f : String → SearchFnResult) (q : String) :
    ((searcherSearch e w f q).customAddVisible =
      (e && !q.isEmpty && !(q.data.all isWhitespaceChar) &&
        !((f q).results.contains q)))
    ∧ (∀ o ∈ w.options, o.selected = false → o.display = q →
        (searcherSearch e w
          (fun s => specDefaultSearch w (some s)) q).customAddVisible = false) := by
  constructor
  · unfold searcherSearch
    cases ha : q.isEmpty <;> cases hws : q.data.all isWhitespaceChar <;>
      cases hz : (w.options.filter (fun o => !o.selected)).isEmpty <;>
      simp [ha, hws, hz]
  · intro o ho hsel hd
    have hq : q ∈ (specDefaultSearch w (some q)).results :=
      specDefaultSearch_self_mem w q o ho hsel hd
    unfold searcherSearch
    by_cases h1 : (!q.isEmpty && q.data.all isWhitespaceChar) = true
    · rw [if_pos h1]
    · rw [if_neg h1]
      by_cases h2 : (q.isEmpty &&
          (w.options.filter (fun o => !o.selected)).isEmpty) = true
      · rw [if_pos h2]
      · rw [if_neg h2]
        have hc : (specDefaultSearch w (some q)).results.contains q = true := by
          simpa using hq
        show (e && !q.isEmpty &&
          !((specDefaultSearch w (some q)).results.contains q)) = false
        rw [hc]
        simp

/-- C8 counterexample: with custom add enabled and the default search
over unselected One, Two, Three, the all-whitespace query has no
case-sensitive exact match among its results, so the claim as stated
demands a visible custom-add row; the modelled search instead closes
everything and shows none. -/
theorem searcherCustomAdd_cex :
    (searcherSearch true w3
      (fun s => specDefaultSearch w3 (some s)) "   ").customAddVisible = false
    ∧ (true && !("   " : String).isEmpty &&
        !((specDefaultSearch w3 (some "   ")).results.contains "   ")) = true := by
  decide

end PrimeWidget
